import Mathlib

/-!
# Verification of the Stata .dta codec (stataread.c)

Shallow embedding of the codec in `src/src/stataread.c`, which reads Stata
version 5/6 `.dta` files and writes version 6 files.  Machine bytes are
modelled as `Fin 256`, C `int` as `ℤ`, doubles as an inductive separating
R's NA, NaN, the infinities and finite values (only comparisons and
finiteness tests appear in the source, never floating arithmetic, so a
rational carrier for finite values is exact).  Fallible stream reads return
`Except`.
-/

set_option maxRecDepth 4096

namespace Stataread

/-- A machine byte (C `unsigned char`). -/
abbrev Byte := Fin 256

/-- An input stream of raw bytes, consumed strictly left to right
(the C code performs only forward `fread` calls). -/
abbrev ByteStream := List Byte

/-- Model of an R double at the precision the source needs: the source only
ever tests `R_FINITE` and compares against the sentinel `2^1023`, so finite
values carry an exact rational and the non-finite bit patterns R
distinguishes are constructors. -/
inductive RDouble
  | na
  | nan
  | posInf
  | negInf
  | finite (q : ℚ)
  deriving DecidableEq

/-- `R_FINITE` from the R API: true exactly on finite values (false on
`NA_REAL`, NaN and the infinities). -/
def R_FINITE : RDouble → Bool
  | .finite _ => true
  | _ => false

/-- Stata format constants, lines 38-48 of stataread.c. -/
def STATA_FLOAT : ℕ := 102

/-- Type tag byte for double columns (`'d'`). -/
def STATA_DOUBLE : ℕ := 100

/-- Type tag byte for 4-byte-int columns (`'l'`). -/
def STATA_INT : ℕ := 108

/-- Type tag byte for 2-byte-int columns (`'i'`). -/
def STATA_SHORTINT : ℕ := 105

/-- Type tag byte for byte columns (`'b'`). -/
def STATA_BYTE : ℕ := 98

/-- Offset added to a string column's width to form its type tag byte. -/
def STATA_STRINGOFFSET : ℕ := 127

/-- Missing-value sentinel for byte cells (line 46). -/
def STATA_BYTE_NA : ℕ := 127

/-- Missing-value sentinel for short-int cells (line 47). -/
def STATA_SHORTINT_NA : ℕ := 32767

/-- Missing-value sentinel for 4-byte-int cells (line 48). -/
def STATA_INT_NA : ℤ := 2147483647

/-- Missing-value sentinel for float cells, `pow(2,127)` (line 127). -/
def STATA_FLOAT_NA : ℚ := 2 ^ 127

/-- Missing-value sentinel for double cells, `pow(2,1023)` (line 128). -/
def STATA_DOUBLE_NA : ℚ := 2 ^ 1023

/-- R's `NA_INTEGER`, the abstract integer missing marker (INT_MIN). -/
def NA_INTEGER : ℤ := -2147483648

/-! ## Byte-order swap functions (lines 69-103)

The C unions reinterpret an 8- or 4-byte value as its byte array; the swap
functions permute the bytes.  We model the byte arrays directly, one field
per `bytes[i]` slot, so each Lean assignment mirrors one C assignment. -/

/-- The byte array of a `stata8` union (8 bytes of a double). -/
structure Bytes8 where
  b0 : ℕ
  b1 : ℕ
  b2 : ℕ
  b3 : ℕ
  b4 : ℕ
  b5 : ℕ
  b6 : ℕ
  b7 : ℕ
  deriving DecidableEq

/-- The byte array of a `stata4` union (4 bytes of an int or float). -/
structure Bytes4 where
  b0 : ℕ
  b1 : ℕ
  b2 : ℕ
  b3 : ℕ
  deriving DecidableEq

/-- `swapd` (lines 69-81): byte-reverses an 8-byte double. -/
def swapd (input : Bytes8) : Bytes8 :=
  { b7 := input.b0, b0 := input.b7
    b6 := input.b1, b1 := input.b6
    b5 := input.b2, b2 := input.b5
    b4 := input.b3, b3 := input.b4 }

/-- `swapi` (lines 84-92): byte-reverses a 4-byte int. -/
def swapi (input : Bytes4) : Bytes4 :=
  { b0 := input.b3, b3 := input.b0
    b1 := input.b2, b2 := input.b1 }

/-- `swapf` (lines 95-103): byte-reverses a 4-byte float.  (The C function
returns the swapped float widened to double; the widening is a value
conversion after the byte permutation and is undone by the caller's
assignment back into a float, so the byte-level action is the permutation.) -/
def swapf (input : Bytes4) : Bytes4 :=
  { b0 := input.b3, b3 := input.b0
    b1 := input.b2, b2 := input.b1 }

/-- The 16-bit byte-order swap.  The source has no standalone `swap16`
function: the two bytes of a short are exchanged inline by the
`stata_endian` branch of `InShortIntBinary` (lines 159-163) and
`OutShortIntBinary` (lines 464-471), which assemble `(first<<8)|second`
for one byte order and `(second<<8)|first` for the other — i.e. changing
declared byte order is exactly exchanging the two bytes. -/
def swap16 (p : Byte × Byte) : Byte × Byte := (p.2, p.1)

/-! ## Value-level NA translation (lines 135-186, 446-484)

Each `In*Binary` routine reads raw bytes, byte-swaps if the file's declared
order differs from the native one, and then translates the kind's sentinel
to the abstract missing marker unless `naok` is set.  We model the
post-assembly value logic; the short-int routine is modelled from its two
raw bytes because the source itself assembles it byte-by-byte. -/

/-- `InByteBinary` (lines 145-151): a raw byte; the sentinel 127 becomes
`NA_INTEGER` unless `naok`. -/
def InByteBinary (i : Byte) (naok : Bool) : ℤ :=
  if i.val = STATA_BYTE_NA ∧ ¬naok then NA_INTEGER else (i.val : ℤ)

/-- The 16-bit assembly of `InShortIntBinary` (lines 159-163): big-endian
(`LOHI`) files put the high byte first. -/
def assembleShort (lohi : Bool) (first second : Byte) : ℕ :=
  if lohi then first.val * 256 + second.val else second.val * 256 + first.val

/-- `InShortIntBinary` (lines 153-165): two raw bytes (read with `naok=1`)
assembled per the file's declared byte order; the assembled sentinel 32767
becomes `NA_INTEGER` unless `naok`. -/
def InShortIntBinary (lohi : Bool) (first second : Byte) (naok : Bool) : ℤ :=
  let result := assembleShort lohi first second
  if result = STATA_SHORTINT_NA ∧ ¬naok then NA_INTEGER else (result : ℤ)

/-- `InIntegerBinary` (lines 135-143), after the optional byte swap: the
sentinel 2147483647 becomes `NA_INTEGER` unless `naok`. -/
def InIntegerBinary (i : ℤ) (naok : Bool) : ℤ :=
  if i = STATA_INT_NA ∧ ¬naok then NA_INTEGER else i

/-- `InDoubleBinary` (lines 168-176), after the optional byte swap: the
sentinel `2^1023` becomes `NA_REAL` unless `naok`. -/
def InDoubleBinary (i : RDouble) (naok : Bool) : RDouble :=
  if i = .finite STATA_DOUBLE_NA ∧ ¬naok then .na else i

/-- `InFloatBinary` (lines 178-186), after the optional byte swap: the
sentinel `2^127` becomes the missing marker unless `naok`. -/
def InFloatBinary (i : RDouble) (naok : Bool) : RDouble :=
  if i = .finite STATA_FLOAT_NA ∧ ¬naok then .na else i

/-- `OutIntegerBinary` (lines 446-452): `NA_INTEGER` is written as the
sentinel 2147483647 unless `naok`; every other int is written unchanged. -/
def OutIntegerBinary (i : ℤ) (naok : Bool) : ℤ :=
  if i = NA_INTEGER ∧ ¬naok then STATA_INT_NA else i

/-- `OutDoubleBinary` (lines 479-484): every non-finite double (NA, NaN,
either infinity) is written as the sentinel `2^1023`; finite doubles are
written unchanged.  (The `naok` parameter is unused in the source.) -/
def OutDoubleBinary (d : RDouble) : RDouble :=
  if R_FINITE d then d else .finite STATA_DOUBLE_NA

/-! ## Name mangling (lines 194-199, 493-499) -/

/-- `nameMangle` (lines 194-199): on decode, every `_` in a variable name
becomes `.`; the C loop runs over each buffer position in turn. -/
def nameMangle (stataname : List Char) : List Char :=
  stataname.map (fun c => if c = '_' then '.' else c)

/-- `nameMangleOut` (lines 493-499): on encode, every `.` in a variable
name becomes `_`. -/
def nameMangleOut (stataname : List Char) : List Char :=
  stataname.map (fun c => if c = '.' then '_' else c)

/-! ## Stream-level decode (R_LoadStataData, lines 212-422)

Reads are modelled on a finite byte list; an exhausted stream is the
`"a binary read error occured"` path of the `In*Binary` routines. -/

/-- Error outcomes of decode: `ioError` is a short read, the others are the
three `error(...)` format rejections in `R_LoadStataData`. -/
inductive StataError
  | ioError
  | badVersion
  | unknownDataType
  | strangeChar
  deriving DecidableEq

/-- The release-version check opening `R_LoadStataData` (lines 224-235):
the very first byte read decides version 5 (`0x69`), version 6 (`'l'` =
`0x6C`), or the fatal `"Not a Stata v5 or v6 file"` rejection.  Returns the
`version5` flag and the rest of the stream. -/
def readVersion : ByteStream → Except StataError (Bool × ByteStream)
  | [] => .error .ioError
  | b :: rest =>
    let abyte := InByteBinary b true
    if abyte = 0x69 then .ok (true, rest)
    else if abyte = 0x6C then .ok (false, rest)
    else .error .badVersion

/-- The variable-characteristics skipper (lines 363-370): while the leading
byte is nonzero, read a 2-byte length and skip that many bytes; once the
zero terminator byte is seen, read one more 2-byte length, which must be
zero or the file is rejected (`"Type 0 characteristic of nonzero length"`).
Returns the remaining stream on success. -/
def skipCharacteristics (lohi : Bool) : ByteStream → Except StataError ByteStream
  | [] => .error .ioError
  | b :: rest =>
    if b.val = 0 then
      match rest with
      | f :: sec :: rest2 =>
        if InShortIntBinary lohi f sec true ≠ 0 then .error .strangeChar
        else .ok rest2
      | _ => .error .ioError
    else
      match rest with
      | f :: sec :: rest2 =>
        if (InShortIntBinary lohi f sec true).toNat ≤ rest2.length then
          skipCharacteristics lohi (rest2.drop (InShortIntBinary lohi f sec true).toNat)
        else .error .ioError
      | _ => .error .ioError
termination_by s => s.length
decreasing_by
  simp only [List.length_drop, List.length_cons]
  omega

/-- One characteristics record as the skipper's loop consumes it: a type
byte, then a 2-byte length, then that many payload bytes. -/
structure CharRecord where
  rtype : Byte
  payload : List Byte

/-- The two bytes of a 16-bit length in the file's declared byte order:
`assembleShort` applied to them recovers `n` when `n < 65536`. -/
def shortBytes (lohi : Bool) (n : ℕ) : Byte × Byte :=
  if lohi then (⟨n / 256 % 256, by omega⟩, ⟨n % 256, by omega⟩)
  else (⟨n % 256, by omega⟩, ⟨n / 256 % 256, by omega⟩)

/-- The wire form of one characteristics record. -/
def encodeCharRecord (lohi : Bool) (r : CharRecord) : List Byte :=
  r.rtype :: (shortBytes lohi r.payload.length).1 ::
    (shortBytes lohi r.payload.length).2 :: r.payload

/-- A well-formed nonzero-type record: nonzero type byte and a payload
whose length fits the 2-byte length field. -/
def wellFormedRecord (r : CharRecord) : Prop :=
  r.rtype.val ≠ 0 ∧ r.payload.length < 65536

/-- A decoded column type: the five fixed-width kinds or a string kind
carrying its declared width. -/
inductive ColType
  | stFloat
  | stDouble
  | stInt
  | stShortInt
  | stByte
  | stString (width : ℕ)
  deriving DecidableEq

/-- The per-variable type-tag switch of `R_LoadStataData` (lines 277-299),
together with the width arithmetic `charlen = types[j] - STATA_STRINGOFFSET`
applied to string tags at data-reading time (line 396): the five fixed tag
bytes select their kinds, any other byte below `0x7f` is the fatal
`"Unknown data type"`, and every byte `>= 0x7f` is accepted as a string
column of width `tag - 0x7f`. -/
def decodeTypeTag (abyte : Byte) : Except StataError ColType :=
  if abyte.val = STATA_FLOAT then .ok .stFloat
  else if abyte.val = STATA_DOUBLE then .ok .stDouble
  else if abyte.val = STATA_INT then .ok .stInt
  else if abyte.val = STATA_SHORTINT then .ok .stShortInt
  else if abyte.val = STATA_BYTE then .ok .stByte
  else if abyte.val < STATA_STRINGOFFSET then .error .unknownDataType
  else .ok (.stString (abyte.val - STATA_STRINGOFFSET))

/-! ## Encoder (R_SaveStataData, lines 501-652)

The data frame handed to the encoder is a list of columns; R logical and
integer columns both take the `OutIntegerBinary` path, real columns the
`OutDoubleBinary` path, string columns the string path.  The output is
modelled as the sequence of write calls the function performs, one event
per `Out*Binary` / `OutStringBinary` call. -/

/-- A string cell (C `char*` contents up to the terminator). -/
abbrev RString := List Char

/-- One column of the data frame passed to `R_SaveStataData`, by R storage
type (`LGLSXP`, `INTSXP`, `REALSXP`, `STRSXP`). -/
inductive RColumn
  | lgl (cells : List ℤ)
  | int (cells : List ℤ)
  | real (cells : List RDouble)
  | str (cells : List RString)
  deriving DecidableEq

/-- `length(column)` as the C code calls it. -/
def colLength : RColumn → ℕ
  | .lgl cells => cells.length
  | .int cells => cells.length
  | .real cells => cells.length
  | .str cells => cells.length

/-- One write call performed by the encoder. -/
inductive WEvent
  | wbyte (b : ℕ)
  | wshort (v : ℤ)
  | wint (v : ℤ)
  | wdouble (d : RDouble)
  | wstring (s : List Char) (nchar : ℕ)
  deriving DecidableEq

/-- The string-column scan of the types loop (lines 549-554): `charlen`
accumulates the maximum cell length seen, `k` holds the length examined in
the most recent iteration (both start at 0, lines 508 and 549); the loop
runs for `j` from 0 below `nobs`.  Returns `(charlen, k)` as left after
the loop. -/
def strColScan (cells : List RString) (nobs : ℕ) : ℕ × ℕ :=
  (List.range nobs).foldl
    (fun ck j =>
      let k := (cells.getD j []).length
      (if ck.1 < k then k else ck.1, k))
    (0, 0)

/-- The type tag byte the encoder emits per column (lines 539-562): `'l'`
for logical/integer columns, `'d'` for real columns, and for string
columns `(unsigned char)(k + STATA_STRINGOFFSET)` where `k` is the final
loop value from `strColScan` — the length of the last cell examined, not
the accumulated maximum `charlen`. -/
def typeTagByte (nobs : ℕ) : RColumn → ℕ
  | .lgl _ => STATA_INT
  | .int _ => STATA_INT
  | .real _ => STATA_DOUBLE
  | .str cells => ((strColScan cells nobs).2 + STATA_STRINGOFFSET) % 256

/-- `INTEGER(types)[i]` as the encoder stores it (line 556): the final `k`
for string columns; never assigned for other columns (read only on the
string paths), modelled as 0. -/
def savedType (nobs : ℕ) : RColumn → ℕ
  | .str cells => (strColScan cells nobs).2
  | _ => 0

/-- The string width the spec prescribes for an encoded string column: the
maximum cell length actually present in the column. -/
def specStringWidth (cells : List RString) : ℕ :=
  (cells.map List.length).foldr max 0

/-- The numeric format string `"%9.0g"` (line 505). -/
def format9g : List Char := ['%', '9', '.', '0', 'g']

/-- The per-column format slot (lines 582-591): string columns get
`sprintf("%%%ds", INTEGER(types)[i])`, numeric columns get `format9g`. -/
def formatFor (nobs : ℕ) : RColumn → List Char
  | .str cells => '%' :: (Nat.toDigits 10 (strColScan cells nobs).2 ++ ['s'])
  | _ => format9g

/-- The writes for one data cell (lines 627-646): logical and integer
cells through `OutIntegerBinary` with `naok=0`, real cells through
`OutDoubleBinary`, and a string cell written as its `k` characters followed
by `INTEGER(types)[j] - k` zero-padding bytes (no padding when the
difference is not positive).  Out-of-range row indices (possible because
the row loop bound is the first column's length) read the default cell. -/
def writeCell (tj : ℕ) (col : RColumn) (i : ℕ) : List WEvent :=
  match col with
  | .lgl cells => [.wint (OutIntegerBinary (cells.getD i 0) false)]
  | .int cells => [.wint (OutIntegerBinary (cells.getD i 0) false)]
  | .real cells => [.wdouble (OutDoubleBinary (cells.getD i .na))]
  | .str cells =>
    let s := cells.getD i []
    .wstring s s.length :: List.replicate (tj - s.length) (.wbyte 0)

/-- The row-major data loop (lines 625-648): for each of `nobs` rows, each
column in order writes one cell; `nobs` was fixed from the first column. -/
def dataEvents (nobs : ℕ) (df : List RColumn) : List WEvent :=
  (List.range nobs).flatMap (fun i =>
    df.flatMap (fun col => writeCell (savedType nobs col) col i))

/-- The constant data label the encoder writes (line 504). -/
def datalabelOut : List Char := "Written by R.              ".toList

/-- `R_SaveStataData` (lines 501-652) as its sequence of write calls:
release byte 108, native byte-order flag, filetype, padding, `nvar` as a
short, `nobs = length(VECTOR_ELT(df,0))` as an int with `naok=1`, the data
label and zeroed timestamp, the type tag bytes, the 8-char mangled names
each with a terminator byte, the zeroed sort list, the format slots, the
zeroed value-label slots, the variable labels (the column names truncated
to 80), the three-zero characteristics terminator, and the data block. -/
def R_SaveStataData (endianFlag : ℕ) (names : List RString)
    (df : List RColumn) : List WEvent :=
  let nvar := df.length
  let nobs := colLength (df.headD (.int []))
  .wbyte 108 :: .wbyte endianFlag :: .wbyte 1 :: .wbyte 0 ::
  .wshort (nvar : ℤ) :: .wint (OutIntegerBinary (nobs : ℤ) true) ::
  .wstring datalabelOut 81 :: .wstring [] 18 ::
  (df.map (fun col => WEvent.wbyte (typeTagByte nobs col))
    ++ (List.range nvar).flatMap (fun i =>
        [WEvent.wstring (nameMangleOut ((names.getD i []).take 8)) 8,
         WEvent.wbyte 0])
    ++ List.replicate (2 * (nvar + 1)) (WEvent.wbyte 0)
    ++ df.map (fun col => WEvent.wstring (formatFor nobs col) 12)
    ++ List.replicate nvar (WEvent.wstring [] 9)
    ++ (List.range nvar).map (fun i =>
        WEvent.wstring ((names.getD i []).take 80) 81)
    ++ [WEvent.wbyte 0, WEvent.wbyte 0, WEvent.wbyte 0]
    ++ dataEvents nobs df)

/-- Decidable equality of `Except` results, so that concrete decode
outcomes can be settled by `decide`. -/
instance {ε α : Type} [DecidableEq ε] [DecidableEq α] :
    DecidableEq (Except ε α) := fun x y =>
  match x, y with
  | .ok a, .ok b => decidable_of_iff (a = b) (by simp)
  | .error a, .error b => decidable_of_iff (a = b) (by simp)
  | .ok _, .error _ => isFalse (by simp)
  | .error _, .ok _ => isFalse (by simp)

/-! ## Helper lemmas -/

/-- With `naok` set, `InShortIntBinary` returns the raw assembled value. -/
theorem inShort_naok (lohi : Bool) (f sec : Byte) :
    InShortIntBinary lohi f sec true = (assembleShort lohi f sec : ℤ) := by
  simp [InShortIntBinary]

/-- `shortBytes` is a right inverse of `assembleShort` below 65536. -/
theorem assembleShort_shortBytes (lohi : Bool) (n : ℕ) (h : n < 65536) :
    assembleShort lohi (shortBytes lohi n).1 (shortBytes lohi n).2 = n := by
  cases lohi <;> simp [assembleShort, shortBytes] <;> omega

/-- A row loop that writes two events per row writes `2 * n` events. -/
theorem length_flatMap_two {α : Type} (f g : ℕ → α) (n : ℕ) :
    ((List.range n).flatMap (fun i => [f i, g i])).length = 2 * n := by
  induction n with
  | zero => simp
  | succ m ih =>
    rw [List.range_succ]
    simp [List.flatMap_append, ih, Nat.mul_succ]

/-! ## Claim theorems -/

/-- C6: the byte-order swap operations for 16-, 32- and 64-bit values are
involutions: applying the swap twice returns the original value, for every
bit pattern (all byte arrays, hence including sentinel and NaN patterns). -/
theorem claim_C6_swap_involutions :
    (∀ x : Bytes8, swapd (swapd x) = x)
  ∧ (∀ x : Bytes4, swapi (swapi x) = x)
  ∧ (∀ x : Bytes4, swapf (swapf x) = x)
  ∧ (∀ p : Byte × Byte, swap16 (swap16 p) = p) :=
  ⟨fun _ => rfl, fun _ => rfl, fun _ => rfl, fun _ => rfl⟩

/-- Exchanging the two bytes of a short is exactly what flipping the
declared byte order does to `InShortIntBinary`'s assembly (lines 159-163):
this is the sense in which `swap16` is the source's 16-bit byte swap. -/
theorem assembleShort_swap16 (lohi : Bool) (p : Byte × Byte) :
    assembleShort lohi (swap16 p).1 (swap16 p).2 = assembleShort (!lohi) p.1 p.2 := by
  cases lohi <;> simp [assembleShort, swap16]

/-- C7: on decode every `_` in a variable name becomes `.` and on encode
every `.` becomes `_` (position by position, other characters unchanged),
and an encode-then-decode round trip is lossy: the name `a_b.c`, holding
both characters, does not come back to itself. -/
theorem claim_C7_name_mangling :
    (∀ (s : List Char) (i : ℕ),
      (nameMangle s).getD i ' ' =
        if s.getD i ' ' = '_' then '.' else s.getD i ' ')
  ∧ (∀ (s : List Char) (i : ℕ),
      (nameMangleOut s).getD i ' ' =
        if s.getD i ' ' = '.' then '_' else s.getD i ' ')
  ∧ nameMangle (nameMangleOut ['a', '_', 'b', '.', 'c']) ≠ ['a', '_', 'b', '.', 'c'] := by
  refine ⟨?_, ?_, by decide⟩
  · intro s
    induction s with
    | nil => intro i; simp [nameMangle]
    | cons c t ih =>
      intro i
      cases i with
      | zero => simp [nameMangle]
      | succ n => simpa [nameMangle] using ih n
  · intro s
    induction s with
    | nil => intro i; simp [nameMangleOut]
    | cons c t ih =>
      intro i
      cases i with
      | zero => simp [nameMangleOut]
      | succ n => simpa [nameMangleOut] using ih n

/-- C8: the encoder maps every non-finite double — R's NA, NaN and both
infinities — to the double sentinel `2^1023`, so each of them decodes back
as missing after a round trip. -/
theorem claim_C8_nonfinite_to_sentinel :
    OutDoubleBinary .nan = .finite STATA_DOUBLE_NA
  ∧ OutDoubleBinary .posInf = .finite STATA_DOUBLE_NA
  ∧ OutDoubleBinary .negInf = .finite STATA_DOUBLE_NA
  ∧ OutDoubleBinary .na = .finite STATA_DOUBLE_NA
  ∧ InDoubleBinary (OutDoubleBinary .nan) false = .na
  ∧ InDoubleBinary (OutDoubleBinary .posInf) false = .na
  ∧ InDoubleBinary (OutDoubleBinary .negInf) false = .na := by
  refine ⟨rfl, rfl, rfl, rfl, ?_, ?_, ?_⟩ <;>
    simp [OutDoubleBinary, InDoubleBinary, R_FINITE]

/-- C4: any stream whose first byte is neither `0x69` (version 5) nor
`0x6C` (`'l'`, version 6) is rejected as `"Not a Stata v5 or v6 file"`,
whatever the rest of the stream holds — so the rejection happens before
any other field is read. -/
theorem claim_C4_version_check (b : Byte) (rest : ByteStream)
    (h69 : b.val ≠ 0x69) (h6C : b.val ≠ 0x6C) :
    readVersion (b :: rest) = .error .badVersion := by
  have h1 : (b.val : ℤ) ≠ 0x69 := by exact_mod_cast h69
  have h2 : (b.val : ℤ) ≠ 0x6C := by exact_mod_cast h6C
  simp [readVersion, InByteBinary, STATA_BYTE_NA, h1, h2]

/-- Witness for C4 at the concrete first byte 0 with a nonempty tail. -/
theorem claim_C4_witness :
    readVersion (0 :: [1]) = .error .badVersion :=
  claim_C4_version_check 0 [1] (by decide) (by decide)

/-- C10: every tag byte `>= 0x7f` is accepted as a string column of width
`tag - 0x7f` — in particular `0x7f` (width 0) and `0xFF` (width 128) — and
exactly the bytes below `0x7f` that are none of the five fixed-width tags
are rejected as `"Unknown data type"`. -/
theorem claim_C10_type_tags :
    (∀ b : Byte, 127 ≤ b.val → decodeTypeTag b = .ok (.stString (b.val - 127)))
  ∧ decodeTypeTag 127 = .ok (.stString 0)
  ∧ decodeTypeTag 255 = .ok (.stString 128)
  ∧ (∀ b : Byte, b.val < 127 → b.val ≠ STATA_FLOAT → b.val ≠ STATA_DOUBLE →
      b.val ≠ STATA_INT → b.val ≠ STATA_SHORTINT → b.val ≠ STATA_BYTE →
      decodeTypeTag b = .error .unknownDataType) := by
  refine ⟨?_, by decide, by decide, ?_⟩ <;> decide

/-- Witness for C10 at the concrete tags 255 (string of width 128) and 99
(unknown type). -/
theorem claim_C10_witness :
    decodeTypeTag 255 = .ok (.stString 128)
  ∧ decodeTypeTag 99 = .error .unknownDataType :=
  ⟨claim_C10_type_tags.1 255 (by decide),
   claim_C10_type_tags.2.2.2 99 (by decide) (by decide) (by decide) (by decide)
     (by decide) (by decide)⟩

/-- C2: for every representable double and int other than the storage
kind's sentinel, decoding the encoding gives the value back exactly, and
the sentinel itself round-trips only as the abstract missing value.  Float
cells are encoded through the double writer (the encoder has no float
path, every real column is written as double), so their round trip is the
double one; finite floats lie strictly inside `(-2^128, 2^128)`, hence
never collide with the double sentinel `2^1023`, and the float decoder
maps exactly the float sentinel `2^127` to missing. -/
theorem claim_C2_value_roundtrip :
    (∀ q : ℚ, q ≠ STATA_DOUBLE_NA →
      InDoubleBinary (OutDoubleBinary (.finite q)) false = .finite q)
  ∧ InDoubleBinary (OutDoubleBinary (.finite STATA_DOUBLE_NA)) false = .na
  ∧ (∀ i : ℤ, -2147483648 ≤ i → i < 2147483648 → i ≠ STATA_INT_NA →
      InIntegerBinary (OutIntegerBinary i false) false = i)
  ∧ InIntegerBinary (OutIntegerBinary STATA_INT_NA false) false = NA_INTEGER
  ∧ (∀ q : ℚ, -(2 ^ 128) < q → q < 2 ^ 128 → q ≠ STATA_FLOAT_NA →
      InDoubleBinary (OutDoubleBinary (.finite q)) false = .finite q
      ∧ InFloatBinary (.finite q) false = .finite q)
  ∧ InFloatBinary (.finite STATA_FLOAT_NA) false = .na := by
  have hdouble : ∀ q : ℚ, q ≠ STATA_DOUBLE_NA →
      InDoubleBinary (OutDoubleBinary (.finite q)) false = .finite q := by
    intro q hq
    simp [OutDoubleBinary, InDoubleBinary, R_FINITE, hq]
  refine ⟨hdouble, ?_, ?_, ?_, ?_, ?_⟩
  · simp [OutDoubleBinary, InDoubleBinary, R_FINITE]
  · intro i _ _ h3
    by_cases h : i = NA_INTEGER
    · simp [OutIntegerBinary, InIntegerBinary, STATA_INT_NA, NA_INTEGER, h]
    · simp [OutIntegerBinary, InIntegerBinary, h, h3]
  · simp [OutIntegerBinary, InIntegerBinary, STATA_INT_NA, NA_INTEGER]
  · intro q _ h2 hf
    have hq : q ≠ STATA_DOUBLE_NA := by
      intro hh
      rw [hh] at h2
      norm_num [STATA_DOUBLE_NA] at h2
    exact ⟨hdouble q hq, by simp [InFloatBinary, hf]⟩
  · simp [InFloatBinary]

/-- Witness for C2 at the finite double 1, the int 5 and the float 0. -/
theorem claim_C2_witness :
    InDoubleBinary (OutDoubleBinary (.finite 1)) false = .finite 1
  ∧ InIntegerBinary (OutIntegerBinary 5 false) false = 5
  ∧ InFloatBinary (.finite 0) false = .finite 0 :=
  ⟨claim_C2_value_roundtrip.1 1 (by norm_num [STATA_DOUBLE_NA]),
   claim_C2_value_roundtrip.2.2.1 5 (by norm_num) (by norm_num)
     (by norm_num [STATA_INT_NA]),
   (claim_C2_value_roundtrip.2.2.2.2.1 0 (by norm_num) (by norm_num)
     (by norm_num [STATA_FLOAT_NA])).2⟩

/-- C3: for each storage kind the decoder turns exactly that kind's
sentinel bit pattern (byte 127, short 32767, int 2147483647, float
`2^127`, double `2^1023`) into the abstract missing marker when
`naok=false`, passes it through literally when `naok=true`, and the
encoder's two write paths (int and double — the only kinds the encoder
emits for data cells) turn the missing marker back into exactly the
sentinel. -/
theorem claim_C3_sentinel_translation :
    (InByteBinary 127 false = NA_INTEGER ∧ InByteBinary 127 true = 127)
  ∧ (∀ (lohi : Bool) (f sec : Byte),
      assembleShort lohi f sec = STATA_SHORTINT_NA →
      InShortIntBinary lohi f sec false = NA_INTEGER
      ∧ InShortIntBinary lohi f sec true = (STATA_SHORTINT_NA : ℤ))
  ∧ (InIntegerBinary STATA_INT_NA false = NA_INTEGER
      ∧ InIntegerBinary STATA_INT_NA true = STATA_INT_NA)
  ∧ (InFloatBinary (.finite STATA_FLOAT_NA) false = .na
      ∧ InFloatBinary (.finite STATA_FLOAT_NA) true = .finite STATA_FLOAT_NA)
  ∧ (InDoubleBinary (.finite STATA_DOUBLE_NA) false = .na
      ∧ InDoubleBinary (.finite STATA_DOUBLE_NA) true = .finite STATA_DOUBLE_NA)
  ∧ OutIntegerBinary NA_INTEGER false = STATA_INT_NA
  ∧ OutDoubleBinary .na = .finite STATA_DOUBLE_NA := by
  refine ⟨by decide, ?_, by decide, ?_, ?_, by decide, rfl⟩
  · intro lohi f sec h
    simp [InShortIntBinary, h]
  · simp [InFloatBinary]
  · simp [InDoubleBinary]

/-- Witness for C3 at the big-endian short sentinel bytes `0x7f 0xff`. -/
theorem claim_C3_witness :
    InShortIntBinary true 127 255 false = NA_INTEGER
  ∧ InShortIntBinary true 127 255 true = (STATA_SHORTINT_NA : ℤ) :=
  claim_C3_sentinel_translation.2.1 true 127 255 (by decide)

/-- C5: after any sequence of well-formed nonzero-type characteristics
records followed by the zero terminator byte, if the final 2-byte length
value is nonzero the whole file is rejected with the
`"Type 0 characteristic of nonzero length"` format error, whatever bytes
follow. -/
theorem claim_C5_characteristics_terminator (lohi : Bool)
    (records : List CharRecord) (hwf : ∀ r ∈ records, wellFormedRecord r)
    (f sec : Byte) (rest : ByteStream)
    (hnz : assembleShort lohi f sec ≠ 0) :
    skipCharacteristics lohi
      (records.flatMap (encodeCharRecord lohi) ++ 0 :: f :: sec :: rest)
      = .error .strangeChar := by
  induction records with
  | nil =>
    have hz : ((0 : Byte)).val = 0 := rfl
    have : InShortIntBinary lohi f sec true ≠ 0 := by
      rw [inShort_naok]
      exact_mod_cast hnz
    simp [skipCharacteristics, hz, this]
  | cons r rs ih =>
    have hr := hwf r (List.mem_cons_self r rs)
    have hrs : ∀ x ∈ rs, wellFormedRecord x := fun x hx =>
      hwf x (List.mem_cons_of_mem r hx)
    have hlen : (InShortIntBinary lohi (shortBytes lohi r.payload.length).1
        (shortBytes lohi r.payload.length).2 true).toNat = r.payload.length := by
      rw [inShort_naok, assembleShort_shortBytes lohi r.payload.length hr.2]
      exact Int.toNat_natCast _
    have htail : r.payload.length ≤
        (r.payload ++ (rs.flatMap (encodeCharRecord lohi)
          ++ 0 :: f :: sec :: rest)).length := by
      simp
    rw [List.flatMap_cons, encodeCharRecord]
    simp only [List.cons_append, List.append_assoc]
    rw [skipCharacteristics]
    simp only [hr.1, if_false, hlen, htail, if_true, List.drop_left]
    simpa using ih hrs

/-- Witness for C5: one well-formed record of type 1 with a one-byte
payload, then the terminator and a final length of 1. -/
theorem claim_C5_witness :
    skipCharacteristics true
      (([⟨1, [42]⟩] : List CharRecord).flatMap (encodeCharRecord true)
        ++ 0 :: 0 :: 1 :: []) = .error .strangeChar :=
  claim_C5_characteristics_terminator true [⟨1, [42]⟩]
    (by intro r hr; simp at hr; subst hr; exact ⟨by decide, by decide⟩)
    0 1 [] (by decide)

/-- C1: the encoder's declared string width is NOT the maximum cell length.
The types loop accumulates the maximum in `charlen` but then emits
`(unsigned char)(k + STATA_STRINGOFFSET)` from the leftover loop variable
`k`, the length of the last cell scanned, leaving `charlen` dead (lines
548-556).  On the column `["cde","ab"]` the tag byte written is
`129 = 2 + 0x7f` (declared width 2, the last cell's length) while the
maximum cell length — the width both the claim and the loop's own `charlen`
computation prescribe — is 3.  The cell `"cde"` is then written with its
full 3 bytes into the width-2 slot (line 639 writes `k` bytes, line 640
pads by `types[j]-k <= 0` bytes), corrupting the stream. -/
theorem claim_C1_string_width_bug :
    typeTagByte 2 (.str [['c', 'd', 'e'], ['a', 'b']]) = 129
  ∧ specStringWidth [['c', 'd', 'e'], ['a', 'b']] = 3
  ∧ (R_SaveStataData 1 [['x']] [.str [['c', 'd', 'e'], ['a', 'b']]]).getD 8 (.wbyte 0)
      = .wbyte 129
  ∧ 129 - STATA_STRINGOFFSET ≠ 3 := by
  refine ⟨by decide, by decide, ?_, by decide⟩
  rfl

/-- C9: the encoder takes the header observation count from the length of
the first column alone — event index 5 of the write sequence is
`nobs = length(VECTOR_ELT(df,0))` — and the row loop of the data block
runs that many iterations for every column, with no check that the other
columns have the same length: for a real first column and an int second
column of arbitrary, possibly different, lengths, the data block holds
exactly `2 * length(first column)` cell writes. -/
theorem claim_C9_nobs_from_first_column :
    (∀ (endianFlag : ℕ) (names : List RString) (df : List RColumn),
      df ≠ [] →
      (R_SaveStataData endianFlag names df).getD 5 (.wbyte 0)
        = .wint ((colLength (df.headD (.int []))) : ℤ))
  ∧ (∀ (c1 : List RDouble) (c2 : List ℤ),
      (dataEvents (colLength (.real c1)) [.real c1, .int c2]).length
        = 2 * c1.length) := by
  constructor
  · intro endianFlag names df _
    simp [R_SaveStataData, OutIntegerBinary, NA_INTEGER]
  · intro c1 c2
    exact length_flatMap_two
      (fun i => WEvent.wdouble (OutDoubleBinary (c1.getD i .na)))
      (fun i => WEvent.wint (OutIntegerBinary (c2.getD i 0) false))
      c1.length

/-- Witness for C9: a two-column data frame whose first column has one row
and whose second column has three rows; the header count is 1 and the data
block holds two cell writes. -/
theorem claim_C9_witness :
    (R_SaveStataData 1 [] [.real [.finite 1], .int [4, 5, 6]]).getD 5 (.wbyte 0)
      = .wint ((colLength (([RColumn.real [.finite 1],
          RColumn.int [4, 5, 6]].headD (.int []))) : ℕ) : ℤ)
  ∧ (dataEvents (colLength (.real [.finite 1]))
      [.real [.finite 1], .int [4, 5, 6]]).length = 2 * 1 :=
  ⟨claim_C9_nobs_from_first_column.1 1 [] [.real [.finite 1], .int [4, 5, 6]]
      (by simp),
   claim_C9_nobs_from_first_column.2 [.finite 1] [4, 5, 6]⟩

end Stataread
